import Mathlib

/- Verification development for the MPC trajectory optimizer of the Pet-Mk-IV
repository: a shallow embedding of `pet::control::Mpc`
(`src/pet_mk_iv_control/src/mpc.cpp` and
`src/pet_mk_iv_control/include/pet_mk_iv_control/mpc.h`).

Modelling conventions:
* `double` values are modelled as exact rationals (ℚ).
* The planar rotation (`Pose2D<double>::RotationType`, an Eigen 2x2 rotation
  matrix) is a rank-1 manifold; it is modelled by its single degree of
  freedom, a rotation angle in ℚ.  The quaternion/matrix conversions at the
  ROS message boundary (`SO2::from_quaternion`, `SO2::to_quaternion`) are
  angle-preserving and are modelled as the identity on that angle.
* The ceres nonlinear least-squares engine is an external collaborator:
  each `ceres::Solve` call is modelled as an arbitrary update (`Engine`) of
  the parameter-block values handed to ceres (the horizon buffers).
  Contract properties of ceres (constant blocks and subset-parameterized
  components are not modified; the number of parameters does not change) are
  expressed as explicit predicates on the engine. -/

/-- Body twist, stored exactly as `Mpc::set_initial_twist` stores it:
`m_twists.emplace_back(twist.angular.z, twist.linear.x, twist.linear.y)`,
i.e. components `(angular z, linear x, linear y)`.  The third (lateral)
component is the one `ceres::SubsetParameterization{3, {2}}` holds constant. -/
abbrev Twist2D := ℚ × ℚ × ℚ

/-- A planar pose: rotation angle plus 2-D position (`Pose2D<double>`). -/
structure Pose2D where
  rotation : ℚ
  position : ℚ × ℚ
deriving DecidableEq

/-- The kinematic model `KinematicModel::propagate (pose, twist, dt) → pose`.
Its header is not part of `src/`, so the function is kept abstract: every
theorem quantifies over it.  The same function is used by the initial-guess
generator and by the kinematic-consistency residual, exactly as in the code. -/
abbrev KinModel := Pose2D → Twist2D → ℚ → Pose2D

/-- `geometry_msgs::Pose` restricted to the planar fields the code reads:
`position.x`, `position.y` and the yaw angle of `orientation`. -/
structure PoseMsg where
  position_x : ℚ
  position_y : ℚ
  orientation : ℚ
deriving DecidableEq

/-- `nav_msgs::Path`: a frame id plus a sequence of stamped poses. -/
structure PathMsg where
  frame_id : String
  poses : List PoseMsg
deriving DecidableEq

/-- `geometry_msgs::Twist` restricted to the fields the code reads. -/
structure TwistMsg where
  linear_x : ℚ
  linear_y : ℚ
  angular_z : ℚ
deriving DecidableEq

/-- `Mpc::Options` (mpc.h), with the defaults from the header.
`10e-3 = 1/100`. -/
structure Options where
  max_num_poses : ℕ := 100
  time_step : ℚ := 1 / 100
  max_penalty_iterations : ℕ := 8
  penalty_increase_factor : ℚ := 5
  max_constraint_cost : ℚ := 1 / 100
  reference_loss_factor : ℚ := 20
  velocity_loss_factor : ℚ := 1
deriving DecidableEq

/-- The mutable state of a `pet::control::Mpc` instance (mpc.h data members).
The recorded kinematic-constraint residual block ids are modelled by the
horizon step index `i` (1 ≤ i < problem size) of the residual, in insertion
order. -/
structure Mpc where
  options : Options
  rotations : List ℚ
  positions : List (ℚ × ℚ)
  reference_rotations : List ℚ
  reference_positions : List (ℚ × ℚ)
  twists : List Twist2D
  reference_path_set : Bool
  problem_size : ℕ
  kinematic_constraint_residuals : List ℕ
deriving DecidableEq

/-- `Mpc::Mpc`: each horizon buffer starts with exactly one entry
(identity rotation, zero position, zero twist); no reference path yet;
`m_problem_size = 0` (int member default). -/
def Mpc.init (options : Options) : Mpc :=
  { options := options
    rotations := [0]
    positions := [(0, 0)]
    reference_rotations := []
    reference_positions := []
    twists := [(0, 0, 0)]
    reference_path_set := false
    problem_size := 0
    kinematic_constraint_residuals := [] }

/-- `Mpc::set_reference_path`.  `ROS_ASSERT(reference_path.poses.size() > 0)`
is fatal, modelled as `none`.  Otherwise
`m_problem_size = min(size, max_num_poses)`, the previous reference data is
cleared and the first `m_problem_size` reference poses are stored. -/
def Mpc.set_reference_path (m : Mpc) (reference_path : PathMsg) : Option Mpc :=
  if reference_path.poses.length = 0 then none
  else
    let ps := min reference_path.poses.length m.options.max_num_poses
    some { m with
      problem_size := ps
      reference_positions :=
        (reference_path.poses.take ps).map (fun p => (p.position_x, p.position_y))
      reference_rotations := (reference_path.poses.take ps).map PoseMsg.orientation
      reference_path_set := true }

/-- `Mpc::set_initial_pose`: clears `m_positions`/`m_rotations` and stores the
single step-0 pose. -/
def Mpc.set_initial_pose (m : Mpc) (initial_pose : PoseMsg) : Mpc :=
  { m with
    positions := [(initial_pose.position_x, initial_pose.position_y)]
    rotations := [initial_pose.orientation] }

/-- `Mpc::set_initial_twist`: clears `m_twists` and stores the single step-0
twist as `(angular.z, linear.x, linear.y)` — the supplied components verbatim. -/
def Mpc.set_initial_twist (m : Mpc) (initial_twist : TwistMsg) : Mpc :=
  { m with
    twists := [(initial_twist.angular_z, initial_twist.linear_x, initial_twist.linear_y)] }

/-- The pose stored at horizon step `i` (reads `m_rotations[i]`, `m_positions[i]`). -/
def Mpc.poseAt (m : Mpc) (i : ℕ) : Pose2D :=
  { rotation := m.rotations.getD i 0, position := m.positions.getD i (0, 0) }

/-- The twist stored at horizon step `i` (reads `m_twists[i]`). -/
def Mpc.twistAt (m : Mpc) (i : ℕ) : Twist2D :=
  m.twists.getD i (0, 0, 0)

/-- Modelled from the spec: the scalar cost of one
`KinematicConstraintPenaltyResidual` block (the file
`pet_mk_iv_control/residuals.h` is not part of `src/`).  Spec §4.3: the
residual is `manifold_minus(pose_i, propagate(pose_im1, twist_im1, dt))`,
expressed as `[angle error; position error]`, and it is zero iff `pose_i` is
exactly the kinematic propagation of `pose_im1` under `twist_im1`.
`ceres::Problem::EvaluateResidualBlock` with `apply_loss_function = false`
reports the block cost `½‖r‖²`. -/
def kinematicConstraintCost (kin : KinModel) (dt : ℚ) (pose_i pose_im1 : Pose2D)
    (twist_im1 : Twist2D) : ℚ :=
  let predicted := kin pose_im1 twist_im1 dt
  let dtheta := pose_i.rotation - predicted.rotation
  let dx := pose_i.position.1 - predicted.position.1
  let dy := pose_i.position.2 - predicted.position.2
  (dtheta ^ 2 + dx ^ 2 + dy ^ 2) / 2

/-- `Mpc::is_feasible`: re-evaluates every recorded kinematic-constraint
residual block at the current parameter values and fails as soon as one block
cost exceeds `max_constraint_cost`. -/
def Mpc.is_feasible (kin : KinModel) (m : Mpc) : Bool :=
  m.kinematic_constraint_residuals.all fun i =>
    decide (kinematicConstraintCost kin m.options.time_step (m.poseAt i)
      (m.poseAt (i - 1)) (m.twistAt (i - 1)) ≤ m.options.max_constraint_cost)

/-- The loop body of `Mpc::generate_initial_values`: starting from `prev`,
propagate `k` more steps holding `twist` constant, appending the results to
the horizon buffers (the C++ loop runs `i = 1 .. m_problem_size - 1` and only
pushes; it never clears). -/
def genInitLoop (kin : KinModel) (dt : ℚ) (twist : Twist2D) :
    ℕ → Pose2D → Mpc → Mpc
  | 0, _, m => m
  | k + 1, prev, m =>
    let next := kin prev twist dt
    genInitLoop kin dt twist k next
      { m with
        positions := m.positions ++ [next.position]
        rotations := m.rotations ++ [next.rotation]
        twists := m.twists ++ [twist] }

/-- `Mpc::generate_initial_values`: reads `m_twists[0]`, `m_rotations[0]`,
`m_positions[0]` and forward-propagates the kinematic model
`m_problem_size - 1` times with constant twist, appending to the buffers. -/
def Mpc.generate_initial_values (kin : KinModel) (m : Mpc) : Mpc :=
  genInitLoop kin m.options.time_step m.twists.headI (m.problem_size - 1)
    { rotation := m.rotations.headI, position := m.positions.headI } m

/-- The sequence of poses produced by repeatedly applying the kinematic model
with a constant twist (reasoning companion of `genInitLoop`). -/
def propagateChain (kin : KinModel) (twist : Twist2D) (dt : ℚ) :
    ℕ → Pose2D → List Pose2D
  | 0, _ => []
  | k + 1, prev =>
    let next := kin prev twist dt
    next :: propagateChain kin twist dt k next

/-- One constant-twist propagation step (reasoning companion). -/
def stepFn (kin : KinModel) (twist : Twist2D) (dt : ℚ) (p : Pose2D) : Pose2D :=
  kin p twist dt

/-- Identity of a ceres parameter block added by
`Mpc::build_optimization_problem`, indexed by the horizon step. -/
inductive BlockId where
  | rot (i : ℕ)
  | pos (i : ℕ)
  | refRot (i : ℕ)
  | refPos (i : ℕ)
  | twist (i : ℕ)
deriving DecidableEq

/-- The local parameterization attached to a parameter block:
`Rotation2DParameterization` or the differential-drive
`ceres::SubsetParameterization{3, {2}}` (holds component 2, the lateral
velocity, constant). -/
inductive Parameterization where
  | rotation2d
  | twistDiffDrive
deriving DecidableEq

/-- A parameter block declaration: block, ambient size, optional local
parameterization. -/
structure ParamBlockDecl where
  block : BlockId
  size : ℕ
  param : Option Parameterization
deriving DecidableEq

/-- Which residual model a residual block uses. -/
inductive ResidualKind where
  | referencePath
  | velocityChange
  | kinematicConstraint
deriving DecidableEq

/-- Which loss-function handle a residual block is attached to. -/
inductive LossHandle where
  | referenceLoss
  | velocityLoss
  | constraintPenaltyHandle
deriving DecidableEq

/-- A residual block declaration: residual model, loss handle, and the
parameter blocks it reads, in the order they are passed to
`ceres::Problem::AddResidualBlock`. -/
structure ResidualBlockDecl where
  kind : ResidualKind
  loss : LossHandle
  params : List BlockId
deriving DecidableEq

/-- The ceres problem description built by `Mpc::build_optimization_problem`. -/
structure Problem where
  paramBlocks : List ParamBlockDecl
  constantBlocks : List BlockId
  residualBlocks : List ResidualBlockDecl
deriving DecidableEq

/-- The `ReferencePathResidual` block added for horizon step `i`. -/
def referenceResidualAt (i : ℕ) : ResidualBlockDecl :=
  { kind := .referencePath
    loss := .referenceLoss
    params := [.refRot i, .refPos i, .rot i, .pos i] }

/-- The `VelocityChangeResidual` block added for horizon step `i`
(against step `i - 1`). -/
def velocityResidualAt (i : ℕ) : ResidualBlockDecl :=
  { kind := .velocityChange
    loss := .velocityLoss
    params := [.twist i, .twist (i - 1)] }

/-- The `KinematicConstraintPenaltyResidual` block added for horizon step `i`
(against step `i - 1`). -/
def kinematicResidualAt (i : ℕ) : ResidualBlockDecl :=
  { kind := .kinematicConstraint
    loss := .constraintPenaltyHandle
    params := [.rot i, .pos i, .rot (i - 1), .pos (i - 1), .twist (i - 1)] }

/-- The parameter blocks declared in loop iteration `i` of
`Mpc::build_optimization_problem` (in source order). -/
def stepParamBlocks (i : ℕ) : List ParamBlockDecl :=
  [ { block := .rot i, size := 4, param := some .rotation2d }
  , { block := .pos i, size := 2, param := none }
  , { block := .refRot i, size := 4, param := some .rotation2d }
  , { block := .refPos i, size := 2, param := none }
  , { block := .twist i, size := 3, param := some .twistDiffDrive } ]

/-- The residual blocks added in loop iteration `i` of
`Mpc::build_optimization_problem` (in source order). -/
def stepResidualBlocks (i : ℕ) : List ResidualBlockDecl :=
  [referenceResidualAt i, velocityResidualAt i, kinematicResidualAt i]

/-- `Mpc::build_optimization_problem` for problem size `N`: step-0 pose and
twist blocks are declared and set constant; then for each `i = 1 .. N - 1`
the step's blocks are declared (reference blocks constant) and the three
residual blocks are added, recording the kinematic-constraint residual ids
(modelled by the step index) in order.  Returns the problem description and
the recorded `m_kinematic_constraint_residuals`. -/
def build_optimization_problem (N : ℕ) : Problem × List ℕ :=
  ( { paramBlocks :=
        [ { block := .rot 0, size := 4, param := some .rotation2d }
        , { block := .pos 0, size := 2, param := none }
        , { block := .twist 0, size := 3, param := some .twistDiffDrive } ]
          ++ (List.range' 1 (N - 1)).flatMap stepParamBlocks
    , constantBlocks :=
        [.rot 0, .pos 0, .twist 0]
          ++ (List.range' 1 (N - 1)).flatMap fun i => [.refRot i, .refPos i]
    , residualBlocks := (List.range' 1 (N - 1)).flatMap stepResidualBlocks }
  , List.range' 1 (N - 1) )

/-- The parameter values handed to ceres: the three horizon buffers
(`ceres::Solve` mutates these values in place through the pointers
registered by `AddParameterBlock`). -/
structure Horizon where
  rotations : List ℚ
  positions : List (ℚ × ℚ)
  twists : List Twist2D
deriving DecidableEq

/-- The external nonlinear least-squares engine (`ceres::Solve`), as a
black box: given the outer-iteration number, the penalty coefficient
currently installed in the constraint loss handle, and the current parameter
values, it produces new parameter values. -/
abbrev Engine := ℕ → ℚ → Horizon → Horizon

/-- The parameter values of an optimizer state. -/
def Mpc.horizon (m : Mpc) : Horizon :=
  { rotations := m.rotations, positions := m.positions, twists := m.twists }

/-- Replace the parameter values of an optimizer state (what a `ceres::Solve`
call can mutate). -/
def Mpc.withHorizon (m : Mpc) (h : Horizon) : Mpc :=
  { m with rotations := h.rotations, positions := h.positions, twists := h.twists }

/-- ceres contract: solving never changes the number of parameters. -/
def Engine.PreservesLengths (engine : Engine) : Prop :=
  ∀ it coeff h,
    ((engine it coeff h).rotations.length = h.rotations.length
      ∧ (engine it coeff h).positions.length = h.positions.length
      ∧ (engine it coeff h).twists.length = h.twists.length)

/-- ceres contract for `SubsetParameterization{3, {2}}` (and the constant
step-0 twist block): the lateral (third) component of every twist block is
never modified by a solve. -/
def Engine.RespectsTwistSubset (engine : Engine) : Prop :=
  ∀ it coeff h i,
    ((engine it coeff h).twists.get? i).map (fun t => t.2.2)
      = (h.twists.get? i).map (fun t => t.2.2)

/-- Result of the outer penalty loop of `Mpc::solve`:
`iterations` is the final value of the C++ `iteration` counter (one engine
invocation per loop entry); `coeffTrace` lists, in order, the penalty
coefficient installed in `m_constraint_penalty_coefficient_handle` at each
engine invocation; `state` is the optimizer state after the loop. -/
structure LoopResult where
  iterations : ℕ
  coeffTrace : List ℚ
  state : Mpc
deriving DecidableEq

/-- The outer penalty loop of `Mpc::solve` (source lines 98–114):
`while (iteration < max_penalty_iterations) { ++iteration; install coeff;
ceres::Solve; if (is_feasible) break; coeff *= penalty_increase_factor; }`.
`fuel` is `max_penalty_iterations - iteration` at entry. -/
def penaltyLoop (kin : KinModel) (engine : Engine) (factor : ℚ) :
    ℕ → ℕ → ℚ → Mpc → LoopResult
  | 0, iteration, _, m => { iterations := iteration, coeffTrace := [], state := m }
  | fuel + 1, iteration, coeff, m =>
    let m2 := m.withHorizon (engine (iteration + 1) coeff m.horizon)
    if m2.is_feasible kin then
      { iterations := iteration + 1, coeffTrace := [coeff], state := m2 }
    else
      let r := penaltyLoop kin engine factor fuel (iteration + 1) (coeff * factor) m2
      { iterations := r.iterations, coeffTrace := coeff :: r.coeffTrace, state := r.state }

/-- The state of `Mpc::solve` just before the penalty loop: initial values
generated, problem built (which re-records
`m_kinematic_constraint_residuals`). -/
def Mpc.preLoopState (kin : KinModel) (m : Mpc) : Mpc :=
  let m1 := m.generate_initial_values kin
  { m1 with
    kinematic_constraint_residuals := (build_optimization_problem m1.problem_size).2 }

/-- The error text thrown by `Mpc::solve` without a reference path. -/
def referenceErrorMessage : String :=
  "Reference path must be set before calling Mpc::solve()!"

/-- Observable outcome of one `Mpc::solve` call: `error?` is the thrown
error (the call aborts, `some`) or `none`; `iterations` counts the
`ceres::Solve` invocations; `coeffTrace` the installed penalty coefficients;
`warning` whether `ROS_WARN("Max constraint penalty iterations reached.")`
fired; `state` the optimizer state after the call. -/
structure SolveResult where
  error? : Option String
  iterations : ℕ
  coeffTrace : List ℚ
  warning : Bool
  state : Mpc
deriving DecidableEq

/-- `Mpc::solve` (source lines 79–121).  The reference-path check comes
first: on violation the error is thrown before any mutation.  Otherwise the
initial guess is generated, the problem built, the penalty loop run, and the
warning fires iff `iteration >= max_penalty_iterations` at loop exit. -/
def Mpc.solve (kin : KinModel) (engine : Engine) (m : Mpc) : SolveResult :=
  if m.reference_path_set = false then
    { error? := some referenceErrorMessage
      iterations := 0
      coeffTrace := []
      warning := false
      state := m }
  else
    let m2 := m.preLoopState kin
    let r := penaltyLoop kin engine m.options.penalty_increase_factor
      m.options.max_penalty_iterations 0 1 m2
    { error? := none
      iterations := r.iterations
      coeffTrace := r.coeffTrace
      warning := decide (r.iterations ≥ m.options.max_penalty_iterations)
      state := r.state }

/-- The optimizer state after `j` engine invocations of a `solve` call on
`m`, ignoring the feasibility break (the loop's states coincide with this
sequence up to the invocation at which it stops).  Invocation `j` runs with
penalty coefficient `penalty_increase_factor ^ (j - 1)`. -/
def Mpc.engineState (kin : KinModel) (engine : Engine) (m : Mpc) : ℕ → Mpc
  | 0 => m.preLoopState kin
  | j + 1 =>
    (m.engineState kin engine j).withHorizon
      (engine (j + 1) (m.options.penalty_increase_factor ^ j)
        (m.engineState kin engine j).horizon)

/-- Whether the feasibility check succeeds right after engine invocation `k`
of a `solve` call on `m`. -/
def Mpc.feasibleAt (kin : KinModel) (engine : Engine) (m : Mpc) (k : ℕ) : Bool :=
  (m.engineState kin engine k).is_feasible kin

/-- `Mpc::get_optimal_path`: reads out `m_rotations[i]`, `m_positions[i]` for
`i = 0 .. m_problem_size - 1` as stamped poses in the fixed `"map"` frame. -/
def Mpc.get_optimal_path (m : Mpc) : PathMsg :=
  { frame_id := "map"
    poses := (List.range m.problem_size).map fun i =>
      { position_x := (m.positions.getD i (0, 0)).1
        position_y := (m.positions.getD i (0, 0)).2
        orientation := m.rotations.getD i 0 } }

/-- All buffer accesses of `Mpc::get_optimal_path` (`m_rotations[i]`,
`m_positions[i]` for `i < m_problem_size`) are within the buffer bounds.
In C++ an out-of-bounds `std::vector::operator[]` is undefined behaviour. -/
def Mpc.get_optimal_path_in_bounds (m : Mpc) : Prop :=
  m.problem_size ≤ m.rotations.length ∧ m.problem_size ≤ m.positions.length

/-- A concrete computable kinematic model used to instantiate witnesses
(Euler integration of the body twist; the theorems themselves hold for an
arbitrary kinematic model). -/
def sampleKin : KinModel := fun p t dt =>
  { rotation := p.rotation + t.1 * dt
    position := (p.position.1 + t.2.1 * dt, p.position.2 + t.2.2 * dt) }

/-- The default `Mpc::Options` of the header. -/
def defaultOptions : Options := {}

/-- An engine that returns the parameters unchanged (a valid ceres behaviour,
e.g. at a local minimum); used to instantiate witnesses and counterexamples. -/
def idEngine : Engine := fun _ _ h => h

/-- A reference pose at the origin. -/
def pmA : PoseMsg := { position_x := 0, position_y := 0, orientation := 0 }

/-- A reference pose one metre ahead. -/
def pmB : PoseMsg := { position_x := 1, position_y := 0, orientation := 0 }

/-- A freshly constructed optimizer with a two-pose reference path set
(problem size 2), step-0 buffers untouched. -/
def twoPoseMpc : Mpc :=
  ((Mpc.init defaultOptions).set_reference_path
      { frame_id := "map", poses := [pmA, pmB] }).getD (Mpc.init defaultOptions)

/-- Options with an iteration budget of exactly 1. -/
def maxOneOptions : Options := { max_penalty_iterations := 1 }

/-- A fresh optimizer with budget 1 and a two-pose reference path set. -/
def maxOneMpc : Mpc :=
  ((Mpc.init maxOneOptions).set_reference_path
      { frame_id := "map", poses := [pmA, pmB] }).getD (Mpc.init maxOneOptions)

/-- The state after one `solve` on `twoPoseMpc`. -/
def solvedOnce : Mpc := (twoPoseMpc.solve sampleKin idEngine).state

/-- The state after a second `solve` on the same instance, without re-calling
`set_initial_pose` or `set_initial_twist` in between. -/
def solvedTwice : Mpc := (solvedOnce.solve sampleKin idEngine).state

/-- A fresh optimizer with problem size 3 and a nonzero step-0 twist
(used to instantiate the initial-guess theorem). -/
def seedWitnessMpc : Mpc :=
  { Mpc.init defaultOptions with problem_size := 3, twists := [(5, 1, 0)] }

/-- The state expected from `set_reference_path` on a fresh optimizer with
the two-pose path (used to instantiate the reference-path theorem). -/
def refWitnessState : Mpc :=
  { Mpc.init defaultOptions with
    problem_size := 2
    reference_positions := [(0, 0), (1, 0)]
    reference_rotations := [0, 0]
    reference_path_set := true }

/- ------------------------------------------------------------------ -/
/- Helper lemmas.                                                      -/
/- ------------------------------------------------------------------ -/

lemma propagateChain_length (kin : KinModel) (twist : Twist2D) (dt : ℚ) :
    ∀ (k : ℕ) (p : Pose2D), (propagateChain kin twist dt k p).length = k := by
  intro k
  induction k with
  | zero => intro p; simp [propagateChain]
  | succ k ih => intro p; simp [propagateChain, ih]

lemma propagateChain_get? (kin : KinModel) (twist : Twist2D) (dt : ℚ) :
    ∀ (k i : ℕ) (p : Pose2D),
      (propagateChain kin twist dt k p).get? i =
        if i < k then some ((stepFn kin twist dt)^[i + 1] p) else none := by
  intro k
  induction k with
  | zero => intro i p; simp [propagateChain]
  | succ k ih =>
    intro i p
    cases i with
    | zero =>
      simp [propagateChain, stepFn]
    | succ i =>
      simp only [propagateChain, List.get?_cons_succ]
      rw [ih]
      by_cases h : i < k
      · simp only [h, if_true, Nat.succ_lt_succ_iff.mpr h, if_pos (Nat.succ_lt_succ h)]
        rw [Function.iterate_succ_apply]
        rfl
      · simp [h, fun hh => h (Nat.lt_of_succ_lt_succ hh)]

lemma genInitLoop_eq (kin : KinModel) (dt : ℚ) (twist : Twist2D) :
    ∀ (k : ℕ) (prev : Pose2D) (m : Mpc),
      genInitLoop kin dt twist k prev m =
        { m with
          rotations := m.rotations ++ (propagateChain kin twist dt k prev).map Pose2D.rotation
          positions := m.positions ++ (propagateChain kin twist dt k prev).map Pose2D.position
          twists := m.twists ++ List.replicate k twist } := by
  intro k
  induction k with
  | zero => intro prev m; simp [genInitLoop, propagateChain]
  | succ k ih =>
    intro prev m
    show genInitLoop kin dt twist k (kin prev twist dt) _ = _
    rw [ih]
    simp [propagateChain, List.replicate_succ]

lemma generate_initial_values_eq (kin : KinModel) (m : Mpc) :
    m.generate_initial_values kin =
      { m with
        rotations := m.rotations ++
          (propagateChain kin m.twists.headI m.options.time_step (m.problem_size - 1)
            { rotation := m.rotations.headI, position := m.positions.headI }).map Pose2D.rotation
        positions := m.positions ++
          (propagateChain kin m.twists.headI m.options.time_step (m.problem_size - 1)
            { rotation := m.rotations.headI, position := m.positions.headI }).map Pose2D.position
        twists := m.twists ++ List.replicate (m.problem_size - 1) m.twists.headI } := by
  unfold Mpc.generate_initial_values
  rw [genInitLoop_eq]

lemma penaltyLoop_iterations_bounds (kin : KinModel) (engine : Engine) (factor : ℚ) :
    ∀ (fuel it : ℕ) (coeff : ℚ) (m : Mpc),
      it ≤ (penaltyLoop kin engine factor fuel it coeff m).iterations
        ∧ (penaltyLoop kin engine factor fuel it coeff m).iterations ≤ it + fuel := by
  intro fuel
  induction fuel with
  | zero => intro it coeff m; simp [penaltyLoop]
  | succ fuel ih =>
    intro it coeff m
    simp only [penaltyLoop]
    cases hfeas : (m.withHorizon (engine (it + 1) coeff m.horizon)).is_feasible kin with
    | true => simp [hfeas]
    | false =>
      simp only [hfeas, Bool.false_eq_true, if_false]
      have h := ih (it + 1) (coeff * factor) (m.withHorizon (engine (it + 1) coeff m.horizon))
      constructor
      · omega
      · omega

lemma penaltyLoop_state_fields (kin : KinModel) (engine : Engine) (factor : ℚ) :
    ∀ (fuel it : ℕ) (coeff : ℚ) (m : Mpc),
      ((penaltyLoop kin engine factor fuel it coeff m).state.options = m.options
        ∧ (penaltyLoop kin engine factor fuel it coeff m).state.problem_size = m.problem_size
        ∧ (penaltyLoop kin engine factor fuel it coeff m).state.reference_path_set
            = m.reference_path_set
        ∧ (penaltyLoop kin engine factor fuel it coeff m).state.reference_rotations
            = m.reference_rotations
        ∧ (penaltyLoop kin engine factor fuel it coeff m).state.reference_positions
            = m.reference_positions
        ∧ (penaltyLoop kin engine factor fuel it coeff m).state.kinematic_constraint_residuals
            = m.kinematic_constraint_residuals) := by
  intro fuel
  induction fuel with
  | zero => intro it coeff m; simp [penaltyLoop]
  | succ fuel ih =>
    intro it coeff m
    simp only [penaltyLoop]
    cases hfeas : (m.withHorizon (engine (it + 1) coeff m.horizon)).is_feasible kin with
    | true => simp [hfeas, Mpc.withHorizon]
    | false =>
      simp only [hfeas, Bool.false_eq_true, if_false]
      have h := ih (it + 1) (coeff * factor) (m.withHorizon (engine (it + 1) coeff m.horizon))
      simpa [Mpc.withHorizon] using h

lemma penaltyLoop_coeffTrace (kin : KinModel) (engine : Engine) (factor : ℚ) :
    ∀ (fuel it : ℕ) (coeff : ℚ) (m : Mpc),
      (penaltyLoop kin engine factor fuel it coeff m).coeffTrace =
        (List.range ((penaltyLoop kin engine factor fuel it coeff m).iterations - it)).map
          (fun n => coeff * factor ^ n) := by
  intro fuel
  induction fuel with
  | zero => intro it coeff m; simp [penaltyLoop]
  | succ fuel ih =>
    intro it coeff m
    simp only [penaltyLoop]
    cases hfeas : (m.withHorizon (engine (it + 1) coeff m.horizon)).is_feasible kin with
    | true => simp [hfeas, List.range_succ]
    | false =>
      simp only [hfeas, Bool.false_eq_true, if_false]
      have hb := penaltyLoop_iterations_bounds kin engine factor fuel (it + 1) (coeff * factor)
        (m.withHorizon (engine (it + 1) coeff m.horizon))
      rw [ih (it + 1) (coeff * factor) (m.withHorizon (engine (it + 1) coeff m.horizon))]
      have hd : (penaltyLoop kin engine factor fuel (it + 1) (coeff * factor)
          (m.withHorizon (engine (it + 1) coeff m.horizon))).iterations - it
          = ((penaltyLoop kin engine factor fuel (it + 1) (coeff * factor)
            (m.withHorizon (engine (it + 1) coeff m.horizon))).iterations - (it + 1)) + 1 := by
        omega
      rw [hd, List.range_succ_eq_map, List.map_cons, List.map_map]
      simp only [pow_zero, mul_one, List.cons.injEq, true_and]
      apply List.map_congr_left
      intro n _
      simp only [Function.comp_apply]
      rw [pow_succ]
      ring

lemma penaltyLoop_lengths (kin : KinModel) (engine : Engine) (factor : ℚ)
    (hp : Engine.PreservesLengths engine) :
    ∀ (fuel it : ℕ) (coeff : ℚ) (m : Mpc),
      ((penaltyLoop kin engine factor fuel it coeff m).state.rotations.length
          = m.rotations.length
        ∧ (penaltyLoop kin engine factor fuel it coeff m).state.positions.length
            = m.positions.length
        ∧ (penaltyLoop kin engine factor fuel it coeff m).state.twists.length
            = m.twists.length) := by
  intro fuel
  induction fuel with
  | zero => intro it coeff m; simp [penaltyLoop]
  | succ fuel ih =>
    intro it coeff m
    have hp1 := hp (it + 1) coeff m.horizon
    simp only [penaltyLoop]
    cases hfeas : (m.withHorizon (engine (it + 1) coeff m.horizon)).is_feasible kin with
    | true =>
      simp only [hfeas, if_true]
      simpa [Mpc.withHorizon, Mpc.horizon] using hp1
    | false =>
      simp only [hfeas, Bool.false_eq_true, if_false]
      have h := ih (it + 1) (coeff * factor) (m.withHorizon (engine (it + 1) coeff m.horizon))
      simp only [Mpc.withHorizon, Mpc.horizon] at h hp1
      exact ⟨h.1.trans hp1.1, h.2.1.trans hp1.2.1, h.2.2.trans hp1.2.2⟩

lemma all_twists_third_of_get? {l l' : List Twist2D} {c : ℚ}
    (hpt : ∀ i, (l'.get? i).map (fun t => t.2.2) = (l.get? i).map (fun t => t.2.2))
    (h : ∀ x ∈ l, x.2.2 = c) : ∀ x ∈ l', x.2.2 = c := by
  intro x hx
  obtain ⟨i, hi⟩ := List.mem_iff_get?.mp hx
  have hpi := hpt i
  rw [hi] at hpi
  cases hl : l.get? i with
  | none => rw [hl] at hpi; simp at hpi
  | some y =>
    rw [hl] at hpi
    simp only [Option.map_some'] at hpi
    have hy : y ∈ l := List.mem_iff_get?.mpr ⟨i, hl⟩
    have := h y hy
    simp only [Option.some.injEq] at hpi
    rw [hpi, this]

lemma penaltyLoop_twists_third (kin : KinModel) (engine : Engine) (factor : ℚ)
    (hsub : Engine.RespectsTwistSubset engine) (c : ℚ) :
    ∀ (fuel it : ℕ) (coeff : ℚ) (m : Mpc), (∀ x ∈ m.twists, x.2.2 = c) →
      ∀ x ∈ (penaltyLoop kin engine factor fuel it coeff m).state.twists, x.2.2 = c := by
  intro fuel
  induction fuel with
  | zero => intro it coeff m hm; simpa [penaltyLoop] using hm
  | succ fuel ih =>
    intro it coeff m hm
    have hstep : ∀ x ∈ (m.withHorizon (engine (it + 1) coeff m.horizon)).twists, x.2.2 = c := by
      have hpt := fun i => hsub (it + 1) coeff m.horizon i
      exact all_twists_third_of_get? hpt hm
    simp only [penaltyLoop]
    cases hfeas : (m.withHorizon (engine (it + 1) coeff m.horizon)).is_feasible kin with
    | true => simpa [hfeas] using hstep
    | false =>
      simp only [hfeas, Bool.false_eq_true, if_false]
      exact ih (it + 1) (coeff * factor) _ hstep

lemma penaltyLoop_first_feasible (kin : KinModel) (engine : Engine) (m : Mpc) :
    ∀ (fuel it k : ℕ), it < k → k ≤ it + fuel →
      m.feasibleAt kin engine k = true →
      (∀ j, it < j → j < k → m.feasibleAt kin engine j = false) →
      penaltyLoop kin engine m.options.penalty_increase_factor fuel it
          (m.options.penalty_increase_factor ^ it) (m.engineState kin engine it) =
        { iterations := k
          coeffTrace := (List.range' it (k - it)).map
            (fun j => m.options.penalty_increase_factor ^ j)
          state := m.engineState kin engine k } := by
  intro fuel
  induction fuel with
  | zero => intro it k h1 h2 _ _; omega
  | succ fuel ih =>
    intro it k h1 h2 hk hmin
    simp only [penaltyLoop]
    have hstep : (m.engineState kin engine it).withHorizon
        (engine (it + 1) (m.options.penalty_increase_factor ^ it)
          (m.engineState kin engine it).horizon)
        = m.engineState kin engine (it + 1) := rfl
    rw [hstep]
    cases hfeas : (m.engineState kin engine (it + 1)).is_feasible kin with
    | true =>
      have hk1 : k = it + 1 := by
        by_contra hne
        have hlt : it + 1 < k := by omega
        have hj := hmin (it + 1) (by omega) hlt
        rw [Mpc.feasibleAt] at hj
        rw [hj] at hfeas
        exact Bool.noConfusion hfeas
      subst hk1
      have hr : it + 1 - it = 1 := by omega
      simp [hfeas, hr, List.range'_succ]
    | false =>
      have hk1 : it + 1 < k := by
        rcases Nat.lt_or_ge (it + 1) k with h | h
        · exact h
        · exfalso
          have hkk : k = it + 1 := by omega
          rw [Mpc.feasibleAt, hkk] at hk
          rw [hk] at hfeas
          exact Bool.noConfusion hfeas
      simp only [hfeas, Bool.false_eq_true, if_false]
      rw [← pow_succ]
      rw [ih (it + 1) k hk1 (by omega) hk (fun j hj hjk => hmin j (by omega) hjk)]
      have hd : k - it = (k - (it + 1)) + 1 := by omega
      rw [hd, List.range'_succ]
      simp

lemma penaltyLoop_never_feasible (kin : KinModel) (engine : Engine) (m : Mpc) :
    ∀ (fuel it : ℕ),
      (∀ j, it < j → j ≤ it + fuel → m.feasibleAt kin engine j = false) →
      penaltyLoop kin engine m.options.penalty_increase_factor fuel it
          (m.options.penalty_increase_factor ^ it) (m.engineState kin engine it) =
        { iterations := it + fuel
          coeffTrace := (List.range' it fuel).map
            (fun j => m.options.penalty_increase_factor ^ j)
          state := m.engineState kin engine (it + fuel) } := by
  intro fuel
  induction fuel with
  | zero => intro it _; simp [penaltyLoop]
  | succ fuel ih =>
    intro it hall
    simp only [penaltyLoop]
    have hstep : (m.engineState kin engine it).withHorizon
        (engine (it + 1) (m.options.penalty_increase_factor ^ it)
          (m.engineState kin engine it).horizon)
        = m.engineState kin engine (it + 1) := rfl
    rw [hstep]
    have hfeas1 : (m.engineState kin engine (it + 1)).is_feasible kin = false := by
      have := hall (it + 1) (by omega) (by omega)
      rwa [Mpc.feasibleAt] at this
    rw [hfeas1]
    simp only [Bool.false_eq_true, if_false]
    rw [← pow_succ]
    rw [ih (it + 1) (fun j hj hjk => hall j (by omega) (by omega))]
    have hd : it + (fuel + 1) = (it + 1) + fuel := by omega
    rw [List.range'_succ]
    simp [hd]

lemma solve_eq_of_set (kin : KinModel) (engine : Engine) (m : Mpc)
    (hset : m.reference_path_set = true) :
    m.solve kin engine =
      { error? := none
        iterations := (penaltyLoop kin engine m.options.penalty_increase_factor
          m.options.max_penalty_iterations 0 1 (m.preLoopState kin)).iterations
        coeffTrace := (penaltyLoop kin engine m.options.penalty_increase_factor
          m.options.max_penalty_iterations 0 1 (m.preLoopState kin)).coeffTrace
        warning := decide ((penaltyLoop kin engine m.options.penalty_increase_factor
          m.options.max_penalty_iterations 0 1 (m.preLoopState kin)).iterations
            ≥ m.options.max_penalty_iterations)
        state := (penaltyLoop kin engine m.options.penalty_increase_factor
          m.options.max_penalty_iterations 0 1 (m.preLoopState kin)).state } := by
  simp [Mpc.solve, hset]

lemma preLoopState_fields (kin : KinModel) (m : Mpc) :
    ((m.preLoopState kin).options = m.options
      ∧ (m.preLoopState kin).problem_size = m.problem_size
      ∧ (m.preLoopState kin).reference_path_set = m.reference_path_set
      ∧ (m.preLoopState kin).kinematic_constraint_residuals
          = List.range' 1 (m.problem_size - 1)
      ∧ (m.preLoopState kin).rotations.length = m.rotations.length + (m.problem_size - 1)
      ∧ (m.preLoopState kin).positions.length = m.positions.length + (m.problem_size - 1)
      ∧ (m.preLoopState kin).twists.length = m.twists.length + (m.problem_size - 1)) := by
  unfold Mpc.preLoopState
  simp [generate_initial_values_eq, build_optimization_problem, propagateChain_length]

lemma preLoopState_twists (kin : KinModel) (m : Mpc) :
    (m.preLoopState kin).twists
      = m.twists ++ List.replicate (m.problem_size - 1) m.twists.headI := by
  unfold Mpc.preLoopState
  simp [generate_initial_values_eq]

lemma count_flatMap_single {α : Type} [DecidableEq α] (f : ℕ → List α) (x : α) (i : ℕ) :
    ∀ (l : List ℕ), l.Nodup → i ∈ l → (∀ j, x ∈ f j → j = i) →
      (l.flatMap f).count x = (f i).count x := by
  intro l
  induction l with
  | nil => intro _ h; exact absurd h (List.not_mem_nil i)
  | cons a t ih =>
    intro hnd hmem hj
    rw [List.flatMap_cons, List.count_append]
    rcases List.mem_cons.mp hmem with heq | hmem'
    · subst heq
      have ht : (t.flatMap f).count x = 0 := by
        rw [List.count_eq_zero]
        intro hx
        obtain ⟨j, hjt, hxj⟩ := List.mem_flatMap.mp hx
        have hji := hj j hxj
        subst hji
        exact (List.nodup_cons.mp hnd).1 hjt
      rw [ht]
      omega
    · have ha : (f a).count x = 0 := by
        rw [List.count_eq_zero]
        intro hx
        have hai := hj a hx
        subst hai
        exact (List.nodup_cons.mp hnd).1 hmem'
      rw [ha, ih (List.nodup_cons.mp hnd).2 hmem' hj]
      omega

lemma stepResidualBlocks_mem_inj (i j : ℕ) :
    ((referenceResidualAt i ∈ stepResidualBlocks j → j = i)
      ∧ (velocityResidualAt i ∈ stepResidualBlocks j → j = i)
      ∧ (kinematicResidualAt i ∈ stepResidualBlocks j → j = i)) := by
  refine ⟨?_, ?_, ?_⟩ <;> intro h <;>
    simp [stepResidualBlocks, referenceResidualAt, velocityResidualAt,
      kinematicResidualAt] at h <;> omega

lemma stepResidualBlocks_count (i : ℕ) :
    ((stepResidualBlocks i).count (referenceResidualAt i) = 1
      ∧ (stepResidualBlocks i).count (velocityResidualAt i) = 1
      ∧ (stepResidualBlocks i).count (kinematicResidualAt i) = 1) := by
  refine ⟨?_, ?_, ?_⟩ <;>
    simp [stepResidualBlocks, List.count_cons, referenceResidualAt,
      velocityResidualAt, kinematicResidualAt]

lemma seed_twists_eq (kin : KinModel) (m : Mpc) (t0 : Twist2D) (N : ℕ)
    (ht : m.twists = [t0]) (hN : m.problem_size = N) (h1 : 1 ≤ N) :
    (m.generate_initial_values kin).twists = List.replicate N t0 := by
  rw [generate_initial_values_eq]
  simp only [ht, hN, List.headI]
  have hsplit : N = (N - 1) + 1 := by omega
  rw [hsplit, List.replicate_succ]
  simp

lemma seed_poseAt (kin : KinModel) (m : Mpc) (r0 : ℚ) (p0 : ℚ × ℚ) (t0 : Twist2D) (N : ℕ)
    (hr : m.rotations = [r0]) (hp : m.positions = [p0]) (ht : m.twists = [t0])
    (hN : m.problem_size = N) :
    ∀ i < N, (m.generate_initial_values kin).poseAt i
      = (stepFn kin t0 m.options.time_step)^[i] { rotation := r0, position := p0 } := by
  intro i hi
  rw [generate_initial_values_eq]
  simp only [hr, hp, ht, hN, List.headI]
  unfold Mpc.poseAt
  cases i with
  | zero => simp
  | succ i =>
    have hi' : i < N - 1 := by omega
    have hrot : (([r0] ++ (propagateChain kin t0 m.options.time_step (N - 1)
        { rotation := r0, position := p0 }).map Pose2D.rotation).getD (i + 1) 0)
        = ((stepFn kin t0 m.options.time_step)^[i + 1]
            { rotation := r0, position := p0 }).rotation := by
      rw [List.getD_eq_get?, List.get?_append_right (by simp)]
      simp only [List.length_cons, List.length_nil, Nat.add_sub_cancel]
      rw [List.get?_map, propagateChain_get?]
      simp [hi']
    have hpos : (([p0] ++ (propagateChain kin t0 m.options.time_step (N - 1)
        { rotation := r0, position := p0 }).map Pose2D.position).getD (i + 1) (0, 0))
        = ((stepFn kin t0 m.options.time_step)^[i + 1]
            { rotation := r0, position := p0 }).position := by
      rw [List.getD_eq_get?, List.get?_append_right (by simp)]
      simp only [List.length_cons, List.length_nil, Nat.add_sub_cancel]
      rw [List.get?_map, propagateChain_get?]
      simp [hi']
    rw [hrot, hpos]

/- ------------------------------------------------------------------ -/
/- Claim theorems.                                                     -/
/- ------------------------------------------------------------------ -/

/-- C1: In `solve()`, with feasibility meaning that every recorded
kinematic-constraint residual block's scalar cost is at most
`max_constraint_cost`: if feasibility is first reached on engine invocation
`k ≤ max_penalty_iterations`, the external engine is invoked exactly `k`
times and no further penalty iterations run (the state is the one after the
`k`-th invocation); if feasibility is never reached within the budget, the
loop runs exactly `max_penalty_iterations` times; and if
`max_penalty_iterations = 0`, no solver invocation is attempted and the
state after `solve` is exactly the freshly generated initial guess. -/
theorem mpc_solve_iteration_counts (kin : KinModel) (engine : Engine) (m : Mpc)
    (hset : m.reference_path_set = true) :
    ((∀ k, 1 ≤ k → k ≤ m.options.max_penalty_iterations →
        m.feasibleAt kin engine k = true →
        (∀ j, 1 ≤ j → j < k → m.feasibleAt kin engine j = false) →
        ((m.solve kin engine).iterations = k
          ∧ (m.solve kin engine).state = m.engineState kin engine k))
      ∧ ((∀ j, 1 ≤ j → j ≤ m.options.max_penalty_iterations →
            m.feasibleAt kin engine j = false) →
          (m.solve kin engine).iterations = m.options.max_penalty_iterations)
      ∧ (m.options.max_penalty_iterations = 0 →
          ((m.solve kin engine).iterations = 0
            ∧ (m.solve kin engine).state = m.preLoopState kin))) := by
  rw [solve_eq_of_set kin engine m hset]
  have h0 : m.engineState kin engine 0 = m.preLoopState kin := rfl
  refine ⟨?_, ?_, ?_⟩
  · intro k h1 h2 hk hmin
    have hloop := penaltyLoop_first_feasible kin engine m
      m.options.max_penalty_iterations 0 k (by omega) (by omega) hk
      (fun j hj hjk => hmin j (by omega) hjk)
    rw [pow_zero, h0] at hloop
    rw [hloop]
    exact ⟨rfl, rfl⟩
  · intro hall
    have hloop := penaltyLoop_never_feasible kin engine m
      m.options.max_penalty_iterations 0
      (fun j hj hjk => hall j (by omega) (by omega))
    rw [pow_zero, h0] at hloop
    rw [hloop]
    simp
  · intro hmax
    rw [hmax]
    simp [penaltyLoop, Mpc.preLoopState]

/-- C1 witness: on a fresh two-pose instance with the identity engine the
seed is already feasible, so feasibility is first reached on invocation 1
and the engine runs exactly once. -/
theorem mpc_solve_iteration_counts_witness :
    ((twoPoseMpc.solve sampleKin idEngine).iterations = 1
      ∧ (twoPoseMpc.solve sampleKin idEngine).state
          = twoPoseMpc.engineState sampleKin idEngine 1) :=
  (mpc_solve_iteration_counts sampleKin idEngine twoPoseMpc
      (by with_unfolding_all decide)).1 1 (by omega)
    (by with_unfolding_all decide) (by with_unfolding_all decide)
    (fun j hj hjk => absurd (Nat.lt_of_le_of_lt hj hjk) (by omega))

/-- C2: across the outer loop of `solve()`, the penalty coefficient
installed in the kinematic-consistency loss handle starts at 1, equals
`penalty_increase_factor ^ k` after `k` consecutive non-converged
iterations (equivalently, on invocation `k + 1`), is multiplied by exactly
`penalty_increase_factor` from one invocation to the next, and (for a growth
factor ≥ 1) is non-decreasing over the iterations. -/
theorem mpc_solve_penalty_coefficient_schedule (kin : KinModel) (engine : Engine)
    (m : Mpc) (hset : m.reference_path_set = true) :
    ((m.solve kin engine).coeffTrace.length = (m.solve kin engine).iterations
      ∧ (0 < (m.solve kin engine).iterations →
          (m.solve kin engine).coeffTrace.get? 0 = some 1)
      ∧ (∀ i, i < (m.solve kin engine).iterations →
          (m.solve kin engine).coeffTrace.get? i
            = some (m.options.penalty_increase_factor ^ i))
      ∧ (∀ i, i + 1 < (m.solve kin engine).iterations →
          (m.solve kin engine).coeffTrace.get? (i + 1)
            = ((m.solve kin engine).coeffTrace.get? i).map
                (· * m.options.penalty_increase_factor))
      ∧ (1 ≤ m.options.penalty_increase_factor →
          ∀ i j, i ≤ j → j < (m.solve kin engine).iterations →
            (m.solve kin engine).coeffTrace.getD i 0
              ≤ (m.solve kin engine).coeffTrace.getD j 0)) := by
  simp only [solve_eq_of_set kin engine m hset]
  have htr := penaltyLoop_coeffTrace kin engine m.options.penalty_increase_factor
    m.options.max_penalty_iterations 0 1 (m.preLoopState kin)
  simp only [Nat.sub_zero, one_mul] at htr
  have hget : ∀ i, i < (penaltyLoop kin engine m.options.penalty_increase_factor
      m.options.max_penalty_iterations 0 1 (m.preLoopState kin)).iterations →
      (penaltyLoop kin engine m.options.penalty_increase_factor
        m.options.max_penalty_iterations 0 1 (m.preLoopState kin)).coeffTrace.get? i
        = some (m.options.penalty_increase_factor ^ i) := by
    intro i hi
    rw [htr, List.get?_map, List.get?_range hi]
    rfl
  refine ⟨?_, ?_, ?_, ?_, ?_⟩
  · rw [htr]; simp
  · intro hpos
    have := hget 0 hpos
    simpa using this
  · exact hget
  · intro i hi
    rw [hget (i + 1) hi, hget i (by omega)]
    simp only [Option.map_some']
    rw [pow_succ]
  · intro hfac i j hij hj
    rw [List.getD_eq_get?, List.getD_eq_get?, hget j hj, hget i (by omega)]
    simp only [Option.getD_some]
    exact pow_le_pow_right₀ hfac hij

/-- C2 witness: the schedule theorem instantiated on the fresh two-pose
instance with the identity engine. -/
theorem mpc_solve_penalty_coefficient_schedule_witness :
    ((twoPoseMpc.solve sampleKin idEngine).coeffTrace.length
        = (twoPoseMpc.solve sampleKin idEngine).iterations
      ∧ (0 < (twoPoseMpc.solve sampleKin idEngine).iterations →
          (twoPoseMpc.solve sampleKin idEngine).coeffTrace.get? 0 = some 1)
      ∧ (∀ i, i < (twoPoseMpc.solve sampleKin idEngine).iterations →
          (twoPoseMpc.solve sampleKin idEngine).coeffTrace.get? i
            = some (twoPoseMpc.options.penalty_increase_factor ^ i))
      ∧ (∀ i, i + 1 < (twoPoseMpc.solve sampleKin idEngine).iterations →
          (twoPoseMpc.solve sampleKin idEngine).coeffTrace.get? (i + 1)
            = ((twoPoseMpc.solve sampleKin idEngine).coeffTrace.get? i).map
                (· * twoPoseMpc.options.penalty_increase_factor))
      ∧ (1 ≤ twoPoseMpc.options.penalty_increase_factor →
          ∀ i j, i ≤ j → j < (twoPoseMpc.solve sampleKin idEngine).iterations →
            (twoPoseMpc.solve sampleKin idEngine).coeffTrace.getD i 0
              ≤ (twoPoseMpc.solve sampleKin idEngine).coeffTrace.getD j 0)) :=
  mpc_solve_penalty_coefficient_schedule sampleKin idEngine twoPoseMpc
    (by with_unfolding_all decide)

/-- C3: for every kinematic model, every initial pose `(r0, p0)`, every
initial twist `t0` and every problem size `N ≥ 1`, the horizon produced by
`generate_initial_values` from a fresh state holds the twist constant
(`twists[i] = t0` for all `i < N`), satisfies
`pose[i+1] = propagate(pose[i], t0, time_step)` for all `i + 1 < N` (the
kinematic model is applied `N - 1` times), and therefore every
kinematic-consistency residual block evaluates to cost 0 on the seed. -/
theorem mpc_generate_initial_values_seed (kin : KinModel) (m : Mpc) (r0 : ℚ)
    (p0 : ℚ × ℚ) (t0 : Twist2D) (N : ℕ)
    (hr : m.rotations = [r0]) (hp : m.positions = [p0]) (ht : m.twists = [t0])
    (hN : m.problem_size = N) (h1 : 1 ≤ N) :
    (((m.generate_initial_values kin).twists.length = N
        ∧ ∀ i, i < N → (m.generate_initial_values kin).twists.get? i = some t0)
      ∧ (∀ i, i + 1 < N →
          (m.generate_initial_values kin).poseAt (i + 1)
            = kin ((m.generate_initial_values kin).poseAt i) t0 m.options.time_step)
      ∧ (∀ i, 1 ≤ i → i < N →
          kinematicConstraintCost kin m.options.time_step
            ((m.generate_initial_values kin).poseAt i)
            ((m.generate_initial_values kin).poseAt (i - 1))
            ((m.generate_initial_values kin).twistAt (i - 1)) = 0)) := by
  have hT := seed_twists_eq kin m t0 N ht hN h1
  have hP := seed_poseAt kin m r0 p0 t0 N hr hp ht hN
  refine ⟨⟨?_, ?_⟩, ?_, ?_⟩
  · rw [hT]; simp
  · intro i hi
    rw [hT, List.get?_eq_getElem?]
    simp [List.getElem?_replicate, hi]
  · intro i hi
    rw [hP (i + 1) hi, hP i (by omega), Function.iterate_succ_apply']
    rfl
  · intro i h1i hiN
    obtain ⟨j, rfl⟩ : ∃ j, i = j + 1 := ⟨i - 1, by omega⟩
    rw [Nat.add_sub_cancel]
    have htw : (m.generate_initial_values kin).twistAt j = t0 := by
      unfold Mpc.twistAt
      rw [hT, List.getD_eq_getElem?_getD]
      simp [List.getElem?_replicate, Nat.lt_of_succ_lt hiN]
    rw [htw, hP (j + 1) hiN, hP j (by omega), Function.iterate_succ_apply']
    norm_num [kinematicConstraintCost, stepFn]

/-- C3 witness: concrete instance with problem size 3 and step-0 twist
`(5, 1, 0)`: the seeded twist at step 2 equals the initial twist and the
kinematic-consistency cost between steps 0 and 1 is 0. -/
theorem mpc_generate_initial_values_seed_witness :
    ((seedWitnessMpc.generate_initial_values sampleKin).twists.get? 2 = some (5, 1, 0)
      ∧ kinematicConstraintCost sampleKin seedWitnessMpc.options.time_step
          ((seedWitnessMpc.generate_initial_values sampleKin).poseAt 1)
          ((seedWitnessMpc.generate_initial_values sampleKin).poseAt 0)
          ((seedWitnessMpc.generate_initial_values sampleKin).twistAt 0) = 0) := by
  have h := mpc_generate_initial_values_seed sampleKin seedWitnessMpc 0 (0, 0)
    (5, 1, 0) 3 rfl rfl rfl rfl (by omega)
  exact ⟨h.1.2 2 (by omega), h.2.2 1 (by omega) (by omega)⟩

/-- C4: `set_reference_path` is a fatal precondition violation for an empty
reference path; for every non-empty path of length `L` it succeeds, sets the
problem size to `min(L, max_num_poses)`, stores exactly the first
problem-size reference poses (index for index), and the stored reference
data depends only on the new path (any previously stored reference data is
discarded). -/
theorem mpc_set_reference_path_spec (m : Mpc) (reference_path : PathMsg) :
    ((reference_path.poses.length = 0 → m.set_reference_path reference_path = none)
      ∧ (0 < reference_path.poses.length →
          (m.set_reference_path reference_path).isSome = true)
      ∧ (∀ m', m.set_reference_path reference_path = some m' →
          (m'.problem_size = min reference_path.poses.length m.options.max_num_poses
            ∧ m'.reference_path_set = true
            ∧ m'.reference_rotations.length = m'.problem_size
            ∧ m'.reference_positions.length = m'.problem_size
            ∧ (∀ i, i < m'.problem_size →
                ((m'.reference_rotations.get? i
                    = (reference_path.poses.get? i).map PoseMsg.orientation)
                  ∧ m'.reference_positions.get? i
                      = (reference_path.poses.get? i).map
                          (fun p => (p.position_x, p.position_y))))))) := by
  refine ⟨?_, ?_, ?_⟩
  · intro h; simp [Mpc.set_reference_path, h]
  · intro h
    simp [Mpc.set_reference_path, Nat.pos_iff_ne_zero.mp h]
  · intro m' hm'
    by_cases h : reference_path.poses.length = 0
    · simp [Mpc.set_reference_path, h] at hm'
    · simp only [Mpc.set_reference_path, h, if_false] at hm'
      obtain rfl := Option.some_inj.mp hm'
      have hps : min reference_path.poses.length m.options.max_num_poses
          ≤ reference_path.poses.length := Nat.min_le_left _ _
      refine ⟨rfl, rfl, ?_, ?_, ?_⟩
      · simp [List.length_take]
      · simp [List.length_take]
      · intro i hi
        simp only at hi
        constructor
        · rw [List.get?_map, List.get?_take hi]
        · rw [List.get?_map, List.get?_take hi]

/-- C4 witness: the empty path is rejected; the two-pose path on a fresh
optimizer yields problem size 2 with the reference stored. -/
theorem mpc_set_reference_path_spec_witness :
    (((Mpc.init defaultOptions).set_reference_path
          { frame_id := "map", poses := [] } = none)
      ∧ refWitnessState.problem_size = 2
      ∧ refWitnessState.reference_path_set = true) := by
  have h0 := (mpc_set_reference_path_spec (Mpc.init defaultOptions)
    { frame_id := "map", poses := [] }).1 rfl
  have h2 := (mpc_set_reference_path_spec (Mpc.init defaultOptions)
    { frame_id := "map", poses := [pmA, pmB] }).2.2 refWitnessState
    (by with_unfolding_all decide)
  refine ⟨h0, ?_, h2.2.1⟩
  have := h2.1
  simpa using this

/-- C5: if `solve()` is called while no reference path has been set, the
call aborts with the precondition-violation error and the optimizer state is
returned completely unchanged (the check precedes every mutation). -/
theorem mpc_solve_requires_reference_path (kin : KinModel) (engine : Engine)
    (m : Mpc) (h : m.reference_path_set = false) :
    m.solve kin engine =
      { error? := some referenceErrorMessage
        iterations := 0
        coeffTrace := []
        warning := false
        state := m } := by
  simp [Mpc.solve, h]

/-- C5 witness: a freshly constructed optimizer has no reference path, and
`solve` on it errors out with the state unchanged. -/
theorem mpc_solve_requires_reference_path_witness :
    (Mpc.init defaultOptions).solve sampleKin idEngine =
      { error? := some referenceErrorMessage
        iterations := 0
        coeffTrace := []
        warning := false
        state := Mpc.init defaultOptions } :=
  mpc_solve_requires_reference_path sampleKin idEngine (Mpc.init defaultOptions) rfl

lemma idEngine_preserves_lengths : Engine.PreservesLengths idEngine :=
  fun _ _ _ => ⟨rfl, rfl, rfl⟩

lemma idEngine_respects_twist_subset : Engine.RespectsTwistSubset idEngine :=
  fun _ _ _ _ => rfl

/-- C6 counterexample: with budget `max_penalty_iterations = 1`, on the
fresh two-pose instance the first engine invocation already reaches
feasibility (`feasibleAt 1 = true`) and the loop stops after iteration 1 —
the final iteration — yet `solve` still raises the iteration-limit warning
(`iteration >= max_penalty_iterations` uses `>=`, not `>`).  This refutes
the claim that no warning is raised when feasibility is reached on the final
iteration. -/
theorem mpc_solve_warning_counterexample :
    (maxOneMpc.options.max_penalty_iterations = 1
      ∧ maxOneMpc.feasibleAt sampleKin idEngine 1 = true
      ∧ (maxOneMpc.solve sampleKin idEngine).iterations = 1
      ∧ (maxOneMpc.solve sampleKin idEngine).warning = true) := by
  with_unfolding_all decide

/-- C6 amended: the iteration-limit warning fires exactly when the loop runs
its full `max_penalty_iterations` budget — whether or not the final
iteration reached feasibility (and also when the budget is 0); feasibility
reached on an earlier iteration suppresses it.  Exhaustion stays non-fatal:
no error is raised and the best solution found is retained in the state. -/
theorem mpc_solve_warning_exact (kin : KinModel) (engine : Engine) (m : Mpc)
    (hset : m.reference_path_set = true) :
    ((m.solve kin engine).error? = none
      ∧ ((m.solve kin engine).warning = true
          ↔ (m.solve kin engine).iterations = m.options.max_penalty_iterations)) := by
  simp only [solve_eq_of_set kin engine m hset]
  refine ⟨by trivial, ?_⟩
  have hb := penaltyLoop_iterations_bounds kin engine m.options.penalty_increase_factor
    m.options.max_penalty_iterations 0 1 (m.preLoopState kin)
  simp only [decide_eq_true_eq, ge_iff_le]
  omega

/-- C6 amended witness: on the fresh two-pose instance with the default
budget of 8, feasibility arrives on iteration 1 < 8, so no warning. -/
theorem mpc_solve_warning_exact_witness :
    ((twoPoseMpc.solve sampleKin idEngine).error? = none
      ∧ ((twoPoseMpc.solve sampleKin idEngine).warning = true
          ↔ (twoPoseMpc.solve sampleKin idEngine).iterations
              = twoPoseMpc.options.max_penalty_iterations)) :=
  mpc_solve_warning_exact sampleKin idEngine twoPoseMpc (by with_unfolding_all decide)

/-- C7 counterexample: `set_initial_twist` stores the supplied lateral
velocity verbatim rather than zeroing it: for an input twist with
`linear.y = 1` the stored step-0 twist is `(2, 3, 1)` and its lateral
component is 1, not 0 — refuting the claim that the stored step-0 twist has
zero lateral component regardless of the input. -/
theorem mpc_set_initial_twist_counterexample :
    (((Mpc.init defaultOptions).set_initial_twist
          { linear_x := 3, linear_y := 1, angular_z := 2 }).twists = [(2, 3, 1)]
      ∧ ¬((((Mpc.init defaultOptions).set_initial_twist
            { linear_x := 3, linear_y := 1, angular_z := 2 }).twistAt 0).2.2 = 0)) := by
  with_unfolding_all decide

/-- C7 amended: `set_initial_twist` stores the supplied components verbatim
as `(angular.z, linear.x, linear.y)` — the lateral component is not zeroed.
For every engine respecting the lateral-component subset parameterization,
every twist in the horizon after `solve` keeps lateral component equal to
the stored initial twist's lateral component (seed generation copies it,
optimization holds it fixed); laterals are therefore structurally fixed at
zero exactly when the supplied initial twist has zero lateral velocity. -/
theorem mpc_twist_lateral_fixed (kin : KinModel) (engine : Engine) (m : Mpc)
    (t0 : Twist2D) (hset : m.reference_path_set = true) (ht : m.twists = [t0])
    (hsub : Engine.RespectsTwistSubset engine) :
    ((∀ (m2 : Mpc) (msg : TwistMsg),
        (m2.set_initial_twist msg).twists
          = [(msg.angular_z, msg.linear_x, msg.linear_y)])
      ∧ (∀ x ∈ (m.solve kin engine).state.twists, x.2.2 = t0.2.2)) := by
  refine ⟨fun m2 msg => rfl, ?_⟩
  simp only [solve_eq_of_set kin engine m hset]
  apply penaltyLoop_twists_third kin engine _ hsub
  rw [preLoopState_twists]
  intro x hx
  rcases List.mem_append.mp hx with hx | hx
  · rw [ht] at hx
    simp only [List.mem_singleton] at hx
    rw [hx]
  · have hxx := List.eq_of_mem_replicate hx
    rw [hxx, ht]
    rfl

/-- C7 amended witness: on the fresh two-pose instance (stored initial twist
`(0, 0, 0)`) with the identity engine, every horizon twist after `solve` has
lateral component 0. -/
theorem mpc_twist_lateral_fixed_witness :
    ((∀ (m2 : Mpc) (msg : TwistMsg),
        (m2.set_initial_twist msg).twists
          = [(msg.angular_z, msg.linear_x, msg.linear_y)])
      ∧ (∀ x ∈ (twoPoseMpc.solve sampleKin idEngine).state.twists,
          x.2.2 = ((0 : ℚ), (0 : ℚ), (0 : ℚ)).2.2)) :=
  mpc_twist_lateral_fixed sampleKin idEngine twoPoseMpc ((0 : ℚ), (0 : ℚ), (0 : ℚ))
    (by with_unfolding_all decide) (by with_unfolding_all rfl)
    idEngine_respects_twist_subset

/-- C8 counterexample: the horizon buffers are not cleared at the start of
`solve` — `generate_initial_values` only appends.  After a first solve on
the fresh two-pose instance the rotation buffer has length 2 = problem size,
but a second solve on the same instance without re-calling
`set_initial_pose`/`set_initial_twist` leaves it at length 3 ≠ 2, refuting
the claim that buffers equal the problem size after every solve. -/
theorem mpc_solve_buffers_counterexample :
    (solvedOnce.problem_size = 2
      ∧ solvedOnce.rotations.length = 2
      ∧ solvedTwice.problem_size = 2
      ∧ solvedTwice.rotations.length = 3) := by
  with_unfolding_all decide

/-- C8 amended: `solve` does not clear the horizon buffers; for any
length-preserving engine each buffer grows by exactly `problem_size - 1`
entries per solve.  Consequently the buffers have length exactly
`problem_size` after a solve precisely when they had length 1 at the call —
as after construction or after `set_initial_pose`/`set_initial_twist` —
while repeated solves without re-setting the initial state grow them
further. -/
theorem mpc_solve_buffer_growth (kin : KinModel) (engine : Engine) (m : Mpc)
    (hset : m.reference_path_set = true) (hp : Engine.PreservesLengths engine) :
    (((m.solve kin engine).state.rotations.length
        = m.rotations.length + (m.problem_size - 1))
      ∧ ((m.solve kin engine).state.positions.length
          = m.positions.length + (m.problem_size - 1))
      ∧ ((m.solve kin engine).state.twists.length
          = m.twists.length + (m.problem_size - 1))
      ∧ (m.rotations.length = 1 → m.positions.length = 1 → m.twists.length = 1 →
          1 ≤ m.problem_size →
          ((m.solve kin engine).state.rotations.length = m.problem_size
            ∧ (m.solve kin engine).state.positions.length = m.problem_size
            ∧ (m.solve kin engine).state.twists.length = m.problem_size))) := by
  simp only [solve_eq_of_set kin engine m hset]
  have hl := penaltyLoop_lengths kin engine m.options.penalty_increase_factor hp
    m.options.max_penalty_iterations 0 1 (m.preLoopState kin)
  have hf := preLoopState_fields kin m
  refine ⟨?_, ?_, ?_, ?_⟩
  · rw [hl.1, hf.2.2.2.2.1]
  · rw [hl.2.1, hf.2.2.2.2.2.1]
  · rw [hl.2.2, hf.2.2.2.2.2.2]
  · intro h1 h2 h3 h4
    exact ⟨by rw [hl.1, hf.2.2.2.2.1]; omega,
      by rw [hl.2.1, hf.2.2.2.2.2.1]; omega,
      by rw [hl.2.2, hf.2.2.2.2.2.2]; omega⟩

/-- C8 amended witness: on the fresh two-pose instance (buffers of length 1)
with the identity engine the buffers end up with length exactly the problem
size 2 after one solve. -/
theorem mpc_solve_buffer_growth_witness :
    (((twoPoseMpc.solve sampleKin idEngine).state.rotations.length
        = twoPoseMpc.rotations.length + (twoPoseMpc.problem_size - 1))
      ∧ ((twoPoseMpc.solve sampleKin idEngine).state.positions.length
          = twoPoseMpc.positions.length + (twoPoseMpc.problem_size - 1))
      ∧ ((twoPoseMpc.solve sampleKin idEngine).state.twists.length
          = twoPoseMpc.twists.length + (twoPoseMpc.problem_size - 1))
      ∧ (twoPoseMpc.rotations.length = 1 → twoPoseMpc.positions.length = 1 →
          twoPoseMpc.twists.length = 1 → 1 ≤ twoPoseMpc.problem_size →
          (((twoPoseMpc.solve sampleKin idEngine).state.rotations.length
              = twoPoseMpc.problem_size)
            ∧ ((twoPoseMpc.solve sampleKin idEngine).state.positions.length
                = twoPoseMpc.problem_size)
            ∧ ((twoPoseMpc.solve sampleKin idEngine).state.twists.length
                = twoPoseMpc.problem_size)))) :=
  mpc_solve_buffer_growth sampleKin idEngine twoPoseMpc
    (by with_unfolding_all decide) idEngine_preserves_lengths

/-- C9: the optimization problem built for problem size `N` declares the
step-0 pose and twist blocks constant; every residual block belongs to the
blocks of exactly one step `i` with `1 ≤ i < N` (none is attached at step
0); for each such `i` exactly one reference-tracking, one velocity-change
(against step `i - 1`) and one kinematic-consistency residual (against step
`i - 1`) is attached; exactly `N - 1` kinematic-constraint residual ids are
recorded; for `N = 1` no residual exists at all, and with an empty recorded
list `is_feasible` holds trivially. -/
theorem mpc_build_problem_structure (N : ℕ) :
    ((BlockId.rot 0 ∈ (build_optimization_problem N).1.constantBlocks
        ∧ BlockId.pos 0 ∈ (build_optimization_problem N).1.constantBlocks
        ∧ BlockId.twist 0 ∈ (build_optimization_problem N).1.constantBlocks)
      ∧ (∀ r ∈ (build_optimization_problem N).1.residualBlocks,
          ∃ i, 1 ≤ i ∧ i < N ∧ r ∈ stepResidualBlocks i)
      ∧ (∀ i, 1 ≤ i → i < N →
          (((build_optimization_problem N).1.residualBlocks.count
              (referenceResidualAt i) = 1)
            ∧ ((build_optimization_problem N).1.residualBlocks.count
                (velocityResidualAt i) = 1)
            ∧ ((build_optimization_problem N).1.residualBlocks.count
                (kinematicResidualAt i) = 1)))
      ∧ (build_optimization_problem N).2.length = N - 1
      ∧ (N = 1 →
          ((build_optimization_problem N).1.residualBlocks = []
            ∧ (build_optimization_problem N).2 = []))
      ∧ (∀ (kin : KinModel) (m : Mpc),
          m.kinematic_constraint_residuals = [] → m.is_feasible kin = true)) := by
  have hblocks : (build_optimization_problem N).1.residualBlocks
      = (List.range' 1 (N - 1)).flatMap stepResidualBlocks := rfl
  refine ⟨⟨?_, ?_, ?_⟩, ?_, ?_, ?_, ?_, ?_⟩
  · simp [build_optimization_problem]
  · simp [build_optimization_problem]
  · simp [build_optimization_problem]
  · intro r hr
    rw [hblocks] at hr
    obtain ⟨i, hi, hri⟩ := List.mem_flatMap.mp hr
    have hib := List.mem_range'_1.mp hi
    exact ⟨i, by omega, by omega, hri⟩
  · intro i h1 hN
    have hnd : (List.range' 1 (N - 1)).Nodup := List.nodup_range' 1 (N - 1)
    have hmem : i ∈ List.range' 1 (N - 1) := List.mem_range'_1.mpr ⟨h1, by omega⟩
    rw [hblocks]
    refine ⟨?_, ?_, ?_⟩
    · rw [count_flatMap_single stepResidualBlocks (referenceResidualAt i) i _ hnd hmem
        (fun j hj => (stepResidualBlocks_mem_inj i j).1 hj)]
      exact (stepResidualBlocks_count i).1
    · rw [count_flatMap_single stepResidualBlocks (velocityResidualAt i) i _ hnd hmem
        (fun j hj => (stepResidualBlocks_mem_inj i j).2.1 hj)]
      exact (stepResidualBlocks_count i).2.1
    · rw [count_flatMap_single stepResidualBlocks (kinematicResidualAt i) i _ hnd hmem
        (fun j hj => (stepResidualBlocks_mem_inj i j).2.2 hj)]
      exact (stepResidualBlocks_count i).2.2
  · simp [build_optimization_problem]
  · intro h
    subst h
    exact ⟨rfl, rfl⟩
  · intro kin m hres
    simp [Mpc.is_feasible, hres]

/-- C9 witness: the structure theorem instantiated at `N = 3`, including the
unique residual counts at step 2, the two recorded ids, and trivial
feasibility for an empty recorded list. -/
theorem mpc_build_problem_structure_witness :
    ((((build_optimization_problem 3).1.residualBlocks.count
          (referenceResidualAt 2) = 1)
        ∧ ((build_optimization_problem 3).1.residualBlocks.count
            (velocityResidualAt 2) = 1)
        ∧ ((build_optimization_problem 3).1.residualBlocks.count
            (kinematicResidualAt 2) = 1))
      ∧ (build_optimization_problem 3).2.length = 3 - 1
      ∧ (Mpc.init defaultOptions).is_feasible sampleKin = true) := by
  have h := mpc_build_problem_structure 3
  exact ⟨h.2.2.1 2 (by omega) (by omega), h.2.2.2.1,
    h.2.2.2.2.2 sampleKin (Mpc.init defaultOptions) rfl⟩

/-- C10 counterexample: after `set_reference_path` (problem size 2) but
before any `solve`, the rotation buffer still holds only the single
constructor entry, so the loop of `get_optimal_path` would read
`m_rotations[1]` out of bounds — refuting the claim that the accesses are in
bounds in that state (where the claim says the initial guess is returned). -/
theorem mpc_get_optimal_path_counterexample :
    (twoPoseMpc.problem_size = 2
      ∧ twoPoseMpc.rotations.length = 1
      ∧ ¬ twoPoseMpc.get_optimal_path_in_bounds) := by
  unfold Mpc.get_optimal_path_in_bounds
  with_unfolding_all decide

/-- C10 amended: `get_optimal_path` returns a path of exactly problem-size
poses in the fixed `"map"` frame, and after any `solve` call (on an engine
that preserves the parameter-block count, with the step-0 buffers
non-empty) every buffer access it makes is in bounds; before the first
`solve` this need not hold, since the initial guess is only generated inside
`solve`. -/
theorem mpc_get_optimal_path_after_solve (kin : KinModel) (engine : Engine)
    (m : Mpc) (hset : m.reference_path_set = true)
    (hp : Engine.PreservesLengths engine)
    (h1 : 1 ≤ m.rotations.length) (h2 : 1 ≤ m.positions.length) :
    (((m.solve kin engine).state.get_optimal_path.frame_id = "map")
      ∧ ((m.solve kin engine).state.get_optimal_path.poses.length
          = (m.solve kin engine).state.problem_size)
      ∧ ((m.solve kin engine).state.problem_size = m.problem_size)
      ∧ (m.solve kin engine).state.get_optimal_path_in_bounds) := by
  have hfields := penaltyLoop_state_fields kin engine m.options.penalty_increase_factor
    m.options.max_penalty_iterations 0 1 (m.preLoopState kin)
  have hl := penaltyLoop_lengths kin engine m.options.penalty_increase_factor hp
    m.options.max_penalty_iterations 0 1 (m.preLoopState kin)
  have hf := preLoopState_fields kin m
  refine ⟨?_, ?_, ?_, ?_⟩
  · rfl
  · simp [Mpc.get_optimal_path]
  · simp only [solve_eq_of_set kin engine m hset]
    rw [hfields.2.1, hf.2.1]
  · unfold Mpc.get_optimal_path_in_bounds
    simp only [solve_eq_of_set kin engine m hset]
    constructor
    · rw [hfields.2.1, hf.2.1, hl.1, hf.2.2.2.2.1]
      omega
    · rw [hfields.2.1, hf.2.1, hl.2.1, hf.2.2.2.2.2.1]
      omega

/-- C10 amended witness: instantiated on the fresh two-pose instance with
the identity engine, whose step-0 buffers have length 1. -/
theorem mpc_get_optimal_path_after_solve_witness :
    (((twoPoseMpc.solve sampleKin idEngine).state.get_optimal_path.frame_id = "map")
      ∧ ((twoPoseMpc.solve sampleKin idEngine).state.get_optimal_path.poses.length
          = (twoPoseMpc.solve sampleKin idEngine).state.problem_size)
      ∧ ((twoPoseMpc.solve sampleKin idEngine).state.problem_size
          = twoPoseMpc.problem_size)
      ∧ (twoPoseMpc.solve sampleKin idEngine).state.get_optimal_path_in_bounds) :=
  mpc_get_optimal_path_after_solve sampleKin idEngine twoPoseMpc
    (by with_unfolding_all decide) idEngine_preserves_lengths
    (by with_unfolding_all decide) (by with_unfolding_all decide)
